import Mathlib

/-!
Verification development for `get_lenovo_warranty.py` (Lenovo-warranty-Checker).

Shallow embedding conventions:
* Python strings are modelled as `List Char` (`Str`).
* `datetime` values are modelled on a numeric scale: a parsed date `(y, m, d)`
  (always at midnight in the source) is encoded as `((y*100+m)*100+d) * 86400`,
  and "the current moment" (`datetime.now()`) is an arbitrary `Nat` on that
  scale, so the comparison `end_dt >= today` becomes `now ≤ dateVal ymd`.
  The encoding is strictly monotone w.r.t. the lexicographic (y, m, d) order
  for the value ranges `strptime` can produce (m ≤ 12, d ≤ 31).
* The HTTP fetch is an oracle `Str → Except Str Str` (error message or body);
  `requests` exceptions become the `.error` case.
* Case-insensitive matching and whitespace stripping are modelled for ASCII
  (the source's label and the whitespace relevant to it are ASCII).
-/

namespace LenovoWarranty

/-- Python strings, modelled as lists of characters. -/
abbrev Str := List Char

/-- The sentinel `'N/A'`. -/
def naChars : Str := ['N', '/', 'A']

/-- The sentinel `'ERROR'`. -/
def errChars : Str := ['E', 'R', 'R', 'O', 'R']

/-! ## `str.strip()` -/

/-- Whitespace as stripped by Python's `str.strip()` (ASCII part). -/
def pySpace (c : Char) : Bool :=
  c = ' ' || c = '\t' || c = '\n' || c = '\r' || c = '\x0b' || c = '\x0c'

/-- Python's `str.strip()`: drop leading and trailing whitespace. -/
def pyStrip (l : Str) : Str :=
  ((l.dropWhile pySpace).reverse.dropWhile pySpace).reverse

/-! ## `datetime.strptime(s, '%Y-%m-%d')`

CPython compiles `'%Y-%m-%d'` to the anchored regex
`(\d\d\d\d)-(1[0-2]|0[1-9]|[1-9])-(3[01]|[12]\d|0[1-9]|[1-9])` and requires the
whole input to be consumed; the matched fields must then form a valid
`datetime` (year ≥ 1, day within the month, Gregorian leap rule).  Because the
field alternatives consume only digits and the separators are literal dashes,
a string matches iff splitting it on `'-'` yields exactly three tokens, each
wholly matching its field's alternation. -/

/-- Split a character list on `'-'` (Python `re`-level field separation). -/
def splitDash : Str → List Str
  | [] => [[]]
  | c :: cs =>
    if c = '-' then [] :: splitDash cs
    else
      match splitDash cs with
      | [] => [[c]]
      | t :: ts => (c :: t) :: ts

/-- The month field `1[0-2]|0[1-9]|[1-9]` of `%m`, as a whole-token match. -/
def monthTok : Str → Option Nat
  | [c] => if '1' ≤ c ∧ c ≤ '9' then some (c.toNat - 48) else none
  | [c1, c2] =>
    if c1 = '0' then (if '1' ≤ c2 ∧ c2 ≤ '9' then some (c2.toNat - 48) else none)
    else if c1 = '1' then (if '0' ≤ c2 ∧ c2 ≤ '2' then some (10 + (c2.toNat - 48)) else none)
    else none
  | _ => none

/-- The day field `3[01]|[12]\d|0[1-9]|[1-9]` of `%d`, as a whole-token match. -/
def dayTok : Str → Option Nat
  | [c] => if '1' ≤ c ∧ c ≤ '9' then some (c.toNat - 48) else none
  | [c1, c2] =>
    if c1 = '0' then (if '1' ≤ c2 ∧ c2 ≤ '9' then some (c2.toNat - 48) else none)
    else if c1 = '1' ∨ c1 = '2' then
      (if c2.isDigit then some ((c1.toNat - 48) * 10 + (c2.toNat - 48)) else none)
    else if c1 = '3' then (if c2 = '0' ∨ c2 = '1' then some (30 + (c2.toNat - 48)) else none)
    else none
  | _ => none

/-- Decimal value of a digit string. -/
def digitsToNat (l : Str) : Nat :=
  l.foldl (fun a c => a * 10 + (c.toNat - 48)) 0

/-- Days in a month, with the Gregorian leap rule (`datetime`'s validation). -/
def daysInMonth (y m : Nat) : Nat :=
  if m = 2 then (if (y % 4 = 0 ∧ y % 100 ≠ 0) ∨ y % 400 = 0 then 29 else 28)
  else if m = 4 ∨ m = 6 ∨ m = 9 ∨ m = 11 then 30 else 31

/-- CPython `datetime.strptime(s, '%Y-%m-%d')`, returning the `(year, month, day)`
triple on success and `none` where CPython raises `ValueError`. -/
def parseYMD (s : Str) : Option (Nat × Nat × Nat) :=
  match splitDash s with
  | [ys, ms, ds] =>
    if ys.length = 4 ∧ ys.all Char.isDigit then
      match monthTok ms, dayTok ds with
      | some m, some d =>
        let y := digitsToNat ys
        if 1 ≤ y ∧ d ≤ daysInMonth y m then some (y, m, d) else none
      | _, _ => none
    else none
  | _ => none

/-- Numeric encoding of a parsed date (midnight), strictly monotone w.r.t.
`datetime` order on the values `parseYMD` can produce. -/
def dateVal : Nat × Nat × Nat → Nat
  | (y, m, d) => ((y * 100 + m) * 100 + d) * 86400

/-- The encoding of `datetime.min` (= `datetime(1, 1, 1)`). -/
def minDateVal : Nat := dateVal (1, 1, 1)

/-! ## The regex scan `re.findall(r'End Date:&nbsp;</b>([^<]+)', html, re.IGNORECASE)` -/

/-- ASCII lower-casing (how `re.IGNORECASE` compares the label's letters). -/
def asciiLower (c : Char) : Char :=
  if 'A' ≤ c ∧ c ≤ 'Z' then Char.ofNat (c.toNat + 32) else c

/-- Case-insensitive character comparison. -/
def lowEq (a b : Char) : Bool := asciiLower a = asciiLower b

/-- The literal label of the pattern (no regex metacharacters). -/
def labelChars : Str := ['E', 'n', 'd', ' ', 'D', 'a', 't', 'e', ':',
  '&', 'n', 'b', 's', 'p', ';', '<', '/', 'b', '>']

/-- Match `pat` case-insensitively at the start of `text`; on success return
the remaining text. -/
def eatLabel : Str → Str → Option Str
  | [], rest => some rest
  | _ :: _, [] => none
  | p :: ps, c :: cs => if lowEq p c then eatLabel ps cs else none

/-- One step of the scan, with fuel bounding the number of positions visited.
At each position: if the label matches and at least one non-`'<'` character
follows, capture the maximal such run (`[^<]+` is greedy) and continue after
the whole match (`findall` returns non-overlapping matches); otherwise advance
one character. -/
def extractAux : Nat → Str → List Str
  | 0, _ => []
  | _ + 1, [] => []
  | n + 1, c :: cs =>
    match eatLabel labelChars (c :: cs) with
    | some rest =>
      let cap := rest.takeWhile (fun x => x ≠ '<')
      if cap.isEmpty then extractAux n cs
      else cap :: extractAux n (rest.drop cap.length)
    | none => extractAux n cs

/-- The scan `re.findall(r'End Date:&nbsp;</b>([^<]+)', text, re.IGNORECASE)`.
Every recursive call of `extractAux` strictly shortens the text, so fuel
`text.length` never runs out. -/
def extractEndDates (text : Str) : List Str :=
  extractAux text.length text

/-! ## Candidate cleaning, sorting and selection (lines 51-67 of the source) -/

/-- The `valid_dates` list: each extracted string is stripped; empty and
`'N/A'` values are discarded; the rest are paired with their parse result
(`None` for unparsable strings), in extraction order. -/
def candPairs (text : Str) : List (Option (Nat × Nat × Nat) × Str) :=
  ((extractEndDates text).map pyStrip).filterMap fun s =>
    if s = [] ∨ s = naChars then none else some (parseYMD s, s)

/-- The sort key `lambda x: x[0] if x[0] else datetime.min`. -/
def sortKey (p : Option (Nat × Nat × Nat) × Str) : Nat :=
  match p.1 with
  | some ymd => dateVal ymd
  | none => minDateVal

/-- The ordering used by `valid_dates.sort(key=...)`. -/
def pairLe (a b : Option (Nat × Nat × Nat) × Str) : Prop := sortKey a ≤ sortKey b

instance : DecidableRel pairLe := fun a b => Nat.decLe (sortKey a) (sortKey b)

instance : IsTotal (Option (Nat × Nat × Nat) × Str) pairLe :=
  ⟨fun a b => Nat.le_total (sortKey a) (sortKey b)⟩

instance : IsTrans (Option (Nat × Nat × Nat) × Str) pairLe :=
  ⟨fun _ _ _ h h' => Nat.le_trans h h'⟩

/-- Lines 48-67 of `get_lenovo_warranty`: extract, clean, stable-sort
ascending by parsed date (unparsable ⇒ `datetime.min`), return the string of
the last element, or `'N/A'` when no candidate survives.  `List.insertionSort`
is a stable sort, hence extensionally equal to Python's `list.sort`. -/
def selectLatestWarrantyDate (text : Str) : Str :=
  ((((candPairs text).insertionSort pairLe).map Prod.snd).getLast?).getD naChars

/-! ## The fetch boundary and `get_lenovo_warranty` -/

/-- The per-serial result dictionary `{'SerialNumber': ..., 'WarrantyTill': ...}`. -/
structure WarrantyRecord where
  serialNumber : Str
  warrantyTill : Str
deriving DecidableEq

/-- A fetch oracle: `requests.get(url(serial))` either raises (modelled as
`.error` carrying the exception text) or yields the response body. -/
abbrev Fetch := Str → Except Str Str

/-- The stderr line `f"Error fetching warranty for {serial_number}: {e}"`. -/
def fetchErrMsg (serial e : Str) : Str :=
  ("Error fetching warranty for ").toList ++ serial ++ (": ").toList ++ e

/-- Function `get_lenovo_warranty`: on fetch success, extract and select the latest
warranty end date; on a `RequestException`, print a diagnostic to stderr
(returned here as the second component) and use the `'ERROR'` sentinel. -/
def get_lenovo_warranty (fetch : Fetch) (serial : Str) : WarrantyRecord × List Str :=
  match fetch serial with
  | .ok html => (⟨serial, selectLatestWarrantyDate html⟩, [])
  | .error e => (⟨serial, errChars⟩, [fetchErrMsg serial e])

/-! ## The overall active/expired counting pass (lines 154-164) -/

/-- One iteration of the global counter update in `process_bulk_lookup`. -/
def overallStep (now : Nat) (p : Nat × Nat) (r : WarrantyRecord) : Nat × Nat :=
  if r.warrantyTill ≠ naChars ∧ r.warrantyTill ≠ errChars then
    match parseYMD r.warrantyTill with
    | some ymd => if now ≤ dateVal ymd then (p.1 + 1, p.2) else (p.1, p.2 + 1)
    | none => p
  else p

/-- The `(active_count, expired_count)` totals accumulated by the bulk loop. -/
def overallCounts (now : Nat) (rs : List WarrantyRecord) : Nat × Nat :=
  rs.foldl (overallStep now) (0, 0)

/-! ## `summarize_by_year` (lines 89-115) -/

/-- The value type of the `year_counts` defaultdict. -/
structure YearCounts where
  total : Nat
  active : Nat
  expired : Nat
deriving DecidableEq

/-- The defaultdict's default `{"Total": 0, "Active": 0, "Expired": 0}`. -/
def zeroCounts : YearCounts := ⟨0, 0, 0⟩

instance : Inhabited YearCounts := ⟨zeroCounts⟩

/-- Add one record to a year's tallies (`act` = the `end_dt >= today` test). -/
def bumpCounts (c : YearCounts) (act : Bool) : YearCounts :=
  ⟨c.total + 1, c.active + (if act then 1 else 0), c.expired + (if act then 0 else 1)⟩

/-- The `year_counts[year]` update with defaultdict semantics: update the entry in
place if the key is present, else append a fresh entry at the end. -/
def bumpYear (key : Str) (act : Bool) : List (Str × YearCounts) → List (Str × YearCounts)
  | [] => [(key, bumpCounts zeroCounts act)]
  | (k, c) :: rest =>
    if k = key then (k, bumpCounts c act) :: rest else (k, c) :: bumpYear key act rest

/-- Dictionary lookup (keys are unique, so first match). -/
def lookupYear : List (Str × YearCounts) → Str → Option YearCounts
  | [], _ => none
  | (k, c) :: rest, y => if k = y then some c else lookupYear rest y

/-- Dictionary lookup with the defaultdict's default. -/
def getCounts (acc : List (Str × YearCounts)) (y : Str) : YearCounts :=
  (lookupYear acc y).getD zeroCounts

/-- The guarded re-parse done per record by `summarize_by_year` (lines 93-100):
skip empty and sentinel strings, then `strptime`; `none` where the loop
`continue`s. -/
def recordDate (r : WarrantyRecord) : Option (Nat × Nat × Nat) :=
  if r.warrantyTill = [] ∨ r.warrantyTill = naChars ∨ r.warrantyTill = errChars then none
  else parseYMD r.warrantyTill

/-- Python `str(end_dt.year)`: decimal digits without leading zeros. -/
def yearStr (y : Nat) : Str := Nat.toDigits 10 y

/-- One iteration of the `summarize_by_year` accumulation loop. -/
def yearStep (now : Nat) (acc : List (Str × YearCounts)) (r : WarrantyRecord) :
    List (Str × YearCounts) :=
  match recordDate r with
  | some ymd => bumpYear (yearStr ymd.1) (decide (now ≤ dateVal ymd)) acc
  | none => acc

/-- The fully accumulated `year_counts` dictionary. -/
def yearAcc (now : Nat) (rs : List WarrantyRecord) : List (Str × YearCounts) :=
  rs.foldl (yearStep now) []

/-- One row of the printed/exported summary table. -/
structure YearBucket where
  year : Str
  total : Nat
  active : Nat
  expired : Nat
deriving DecidableEq

/-- Python string comparison (lexicographic by code point) as a Bool. -/
def lexLeB : Str → Str → Bool
  | [], _ => true
  | _ :: _, [] => false
  | a :: as, b :: bs => if a < b then true else if b < a then false else lexLeB as bs

/-- The key order of `sorted(year_counts.keys())`. -/
def strLe (a b : Str) : Prop := lexLeB a b = true

instance : DecidableRel strLe := fun a b => instDecidableEqBool (lexLeB a b) true

instance : IsTotal Str strLe :=
  ⟨by
    show ∀ a b : Str, lexLeB a b = true ∨ lexLeB b a = true
    intro a
    induction a with
    | nil => intro b; left; rfl
    | cons x xs ih =>
      intro b
      cases b with
      | nil => right; rfl
      | cons y ys =>
        by_cases hxy : x < y
        · left; simp [lexLeB, hxy]
        · by_cases hyx : y < x
          · right; simp [lexLeB, hyx, hxy]
          · have := ih ys
            rcases this with h | h
            · left; simp [lexLeB, hxy, hyx, h]
            · right; simp [lexLeB, hxy, hyx, h]⟩

instance : IsTrans Str strLe :=
  ⟨by
    show ∀ a b c : Str, lexLeB a b = true → lexLeB b c = true → lexLeB a c = true
    intro a
    induction a with
    | nil => intro b c _ _; rfl
    | cons x xs ih =>
      intro b c hab hbc
      cases b with
      | nil => simp [lexLeB] at hab
      | cons y ys =>
        cases c with
        | nil => simp [lexLeB] at hbc
        | cons z zs =>
          simp only [lexLeB] at hab hbc ⊢
          by_cases hxy : x < y
          · -- x < y; combine with y ≤ z
            by_cases hyz : y < z
            · have hxz : x < z := lt_trans hxy hyz
              simp [hxz]
            · by_cases hzy : z < y
              · simp [hyz, hzy] at hbc
              · have hyz' : y = z := le_antisymm (not_lt.mp hzy) (not_lt.mp hyz)
                subst hyz'
                simp [hxy]
          · by_cases hyx : y < x
            · simp [hxy, hyx] at hab
            · have hxy' : x = y := le_antisymm (not_lt.mp hyx) (not_lt.mp hxy)
              subst hxy'
              by_cases hxz : x < z
              · simp [hxz]
              · by_cases hzx : z < x
                · simp [hxz, hzx] at hbc
                · have hxz' : x = z := le_antisymm (not_lt.mp hzx) (not_lt.mp hxz)
                  subst hxz'
                  simp [hxz, hzx] at hab hbc ⊢
                  exact ih ys zs hab hbc⟩

/-- Function `summarize_by_year` (the pure part: the rows printed/exported, in order):
sort the dictionary keys and emit one row per key. -/
def summarize_by_year (now : Nat) (rs : List WarrantyRecord) : List YearBucket :=
  (((yearAcc now rs).map Prod.fst).insertionSort strLe).map fun y =>
    let c := getCounts (yearAcc now rs) y
    ⟨y, c.total, c.active, c.expired⟩

/-! ## Bulk processing (lines 143-152) -/

/-- Python `serial.startswith('#')` on a (stripped) string. -/
def startsHash : Str → Bool
  | [] => false
  | c :: _ => c = '#'

/-- The serials the bulk loop looks up, in file order. -/
def keptSerials (lines : List Str) : List Str :=
  (lines.map pyStrip).filter fun s => !s.isEmpty && !startsHash s

/-- One iteration of the bulk loop: strip the line, skip empty results and
comments, otherwise look the serial up and append the record. -/
def bulkStep (fetch : Fetch) (acc : List WarrantyRecord) (line : Str) : List WarrantyRecord :=
  let serial := pyStrip line
  if serial.isEmpty || startsHash serial then acc
  else acc ++ [(get_lenovo_warranty fetch serial).1]

/-- The `all_results` list built by `process_bulk_lookup`: one lookup per
kept line, appended in file order (failed fetches contribute their
`'ERROR'` record like any other). -/
def process_bulk (fetch : Fetch) (lines : List Str) : List WarrantyRecord :=
  lines.foldl (bulkStep fetch) []

/-! ## Claim-side predicates and concrete inputs used by the theorems -/

/-- Concrete response text with two valid date candidates. -/
def c1text : Str := ("xEnd Date:&nbsp;</b>2025-01-02<i>end date:&nbsp;</b> 2026-03-04 <").toList

/-- Concrete response text whose two candidates are both unparsable. -/
def c2text : Str := ("End Date:&nbsp;</b>foo<End Date:&nbsp;</b>bar<").toList

/-- Concrete response text with one valid date and one unparsable candidate. -/
def c2btext : Str := ("End Date:&nbsp;</b>2030-05-06<End Date:&nbsp;</b>oops<").toList

/-- Concrete response text whose only candidate is the discarded `"N/A"`. -/
def c3text : Str := ("<b>End Date:&nbsp;</b>N/A</td>").toList

/-- A record the overall pass counts as active: non-sentinel, parseable, and
ending on or after the current moment. -/
def countedActive (now : Nat) (r : WarrantyRecord) : Bool :=
  if r.warrantyTill ≠ naChars ∧ r.warrantyTill ≠ errChars then
    match parseYMD r.warrantyTill with
    | some ymd => decide (now ≤ dateVal ymd)
    | none => false
  else false

/-- A record the overall pass counts as expired: non-sentinel, parseable, and
ending strictly before the current moment. -/
def countedExpired (now : Nat) (r : WarrantyRecord) : Bool :=
  if r.warrantyTill ≠ naChars ∧ r.warrantyTill ≠ errChars then
    match parseYMD r.warrantyTill with
    | some ymd => decide (dateVal ymd < now)
    | none => false
  else false

/-- A record contributing to year `y` (parseable, non-sentinel, right year). -/
def yearHit (y : Str) (r : WarrantyRecord) : Bool :=
  match recordDate r with
  | some ymd => decide (yearStr ymd.1 = y)
  | none => false

/-- A record contributing to year `y` as active. -/
def yearHitActive (now : Nat) (y : Str) (r : WarrantyRecord) : Bool :=
  match recordDate r with
  | some ymd => decide (yearStr ymd.1 = y) && decide (now ≤ dateVal ymd)
  | none => false

/-- A record contributing to year `y` as expired. -/
def yearHitExpired (now : Nat) (y : Str) (r : WarrantyRecord) : Bool :=
  match recordDate r with
  | some ymd => decide (yearStr ymd.1 = y) && decide (dateVal ymd < now)
  | none => false

/-- The C4/C6 example records: one expired, one active, two sentinels. -/
def rs4 : List WarrantyRecord :=
  [⟨("S1").toList, ("2020-01-01").toList⟩, ⟨("S2").toList, ("2099-01-01").toList⟩,
   ⟨("S3").toList, naChars⟩, ⟨("S4").toList, errChars⟩]

/-- A "now" strictly between the two dates of `rs4` (mid-2050, 01:00). -/
def now4 : Nat := dateVal (2050, 6, 15) + 3600

/-- A fetch oracle that always fails with a fixed message. -/
def fetchFail : Fetch := fun _ => .error ("timed out").toList

/-- A concrete serial for the C8 witness. -/
def serialAB : Str := ("AB123").toList

/-- A second concrete serial for the C8 witness. -/
def serialCD : Str := ("CD456").toList

/-- The line-keeping predicate as the claim words it: a line counts when it is
neither blank (strips to empty) nor a comment, where the claim defines a
comment as a line beginning with `'#'` (the raw line, not the stripped one). -/
def claimKept (line : Str) : Bool :=
  !(pyStrip line).isEmpty && !startsHash line

/-- A fetch oracle that always succeeds with an empty body. -/
def fetchOK : Fetch := fun _ => .ok []

/-! ## Basic facts about parsing and candidate construction -/

theorem parseYMD_nil : parseYMD [] = none := by decide

theorem parseYMD_na : parseYMD naChars = none := by decide

theorem parseYMD_err : parseYMD errChars = none := by decide

theorem parseYMD_example_iso : parseYMD (("2020-01-02").toList) = some (2020, 1, 2) := by decide

theorem parseYMD_example_lenient : parseYMD (("2020-1-2").toList) = some (2020, 1, 2) := by decide

theorem parseYMD_example_bad_day : parseYMD (("2020-02-30").toList) = none := by decide

theorem parseYMD_example_year_zero : parseYMD (("0000-01-01").toList) = none := by decide

theorem parseYMD_example_trailing : parseYMD (("2020-01-02x").toList) = none := by decide

theorem parseYMD_example_bad_month : parseYMD (("2020-13-01").toList) = none := by decide

theorem parseYMD_example_leap : parseYMD (("2024-02-29").toList) = some (2024, 2, 29) := by decide

theorem candPairs_spec {text : Str} {p : Option (Nat × Nat × Nat) × Str}
    (hp : p ∈ candPairs text) :
    p.1 = parseYMD p.2 ∧ p.2 ∈ (extractEndDates text).map pyStrip ∧
      p.2 ≠ [] ∧ p.2 ≠ naChars := by
  unfold candPairs at hp
  obtain ⟨s, hs, hf⟩ := List.mem_filterMap.mp hp
  by_cases h : s = [] ∨ s = naChars
  · simp [h] at hf
  · simp only [h, if_false] at hf
    cases hf
    push_neg at h
    exact ⟨rfl, hs, h.1, h.2⟩

theorem candPairs_mem_of {text : Str} {s : Str}
    (hs : s ∈ (extractEndDates text).map pyStrip) (h1 : s ≠ []) (h2 : s ≠ naChars) :
    (parseYMD s, s) ∈ candPairs text := by
  unfold candPairs
  exact List.mem_filterMap.mpr ⟨s, hs, by simp [h1, h2]⟩

theorem sortKey_some {ymd : Nat × Nat × Nat} {s : Str} :
    sortKey (some ymd, s) = dateVal ymd := rfl

theorem sortKey_none {s : Str} : sortKey (none, s) = minDateVal := rfl

/-! ## Facts about the stable sort and the last-element selection -/

theorem mem_of_getLast?_eq : ∀ {l : List α} {p : α}, l.getLast? = some p → p ∈ l := by
  intro l
  induction l with
  | nil => intro p h; simp at h
  | cons a t ih =>
    intro p h
    cases t with
    | nil => simp at h; simp [h]
    | cons b t' =>
      rw [List.getLast?_cons_cons] at h
      exact List.mem_cons_of_mem a (ih h)

theorem sorted_getLast?_max :
    ∀ {l : List (Option (Nat × Nat × Nat) × Str)} {p},
      l.Sorted pairLe → l.getLast? = some p → ∀ q ∈ l, sortKey q ≤ sortKey p := by
  intro l
  induction l with
  | nil => intro p _ h; simp at h
  | cons a t ih =>
    intro p hs hl q hq
    cases t with
    | nil =>
      simp at hl
      subst hl
      rcases List.mem_singleton.mp hq with rfl
      exact Nat.le_refl _
    | cons b t' =>
      rw [List.getLast?_cons_cons] at hl
      rcases List.mem_cons.mp hq with rfl | hq'
      · have hpmem : p ∈ b :: t' := mem_of_getLast?_eq hl
        exact List.rel_of_sorted_cons hs p hpmem
      · exact ih hs.of_cons hl q hq'

theorem select_eq_na {text : Str} (h : candPairs text = []) :
    selectLatestWarrantyDate text = naChars := by
  unfold selectLatestWarrantyDate
  rw [h]
  rfl

theorem select_spec {text : Str} (h : candPairs text ≠ []) :
    ∃ p ∈ candPairs text, selectLatestWarrantyDate text = p.2 ∧
      ∀ q ∈ candPairs text, sortKey q ≤ sortKey p := by
  have hperm : List.Perm ((candPairs text).insertionSort pairLe) (candPairs text) :=
    List.perm_insertionSort pairLe _
  have hne : (candPairs text).insertionSort pairLe ≠ [] := by
    intro h0
    exact h (List.Perm.eq_nil (h0 ▸ hperm.symm))
  obtain ⟨p, hlast⟩ := Option.isSome_iff_exists.mp
    (Option.isSome_iff_ne_none.mpr (mt List.getLast?_eq_none_iff.mp hne))
  refine ⟨p, hperm.mem_iff.mp (mem_of_getLast?_eq hlast), ?_, ?_⟩
  · unfold selectLatestWarrantyDate
    rw [List.getLast?_map, hlast]
    rfl
  · intro q hq
    exact sorted_getLast?_max (List.sorted_insertionSort pairLe _) hlast q
      (hperm.mem_iff.mpr hq)

theorem insertionSort_id_of_all_min
    {l : List (Option (Nat × Nat × Nat) × Str)}
    (h : ∀ p ∈ l, sortKey p = minDateVal) : l.insertionSort pairLe = l := by
  induction l with
  | nil => rfl
  | cons a t ih =>
    have ht : t.insertionSort pairLe = t :=
      ih fun p hp => h p (List.mem_cons_of_mem a hp)
    show List.orderedInsert pairLe a (t.insertionSort pairLe) = a :: t
    rw [ht]
    cases t with
    | nil => rfl
    | cons b t' =>
      have hab : pairLe a b := by
        unfold pairLe
        rw [h a (List.mem_cons_self a _), h b (List.mem_cons_of_mem a (List.mem_cons_self b _))]
      exact List.orderedInsert_of_le pairLe _ hab

/-! ## Claim theorems about the Extractor/Selector -/

/-- C1: for every response text with at least one extracted candidate, where
every extracted, trimmed candidate parses as a valid `YYYY-MM-DD` date,
`selectLatestWarrantyDate` returns (the string of) a trimmed candidate whose
parsed date is the maximum date among the candidates. -/
theorem C1_select_latest_is_max_date (text : Str)
    (h1 : extractEndDates text ≠ [])
    (h2 : ∀ c ∈ extractEndDates text, (parseYMD (pyStrip c)).isSome) :
    ∃ ymd, parseYMD (selectLatestWarrantyDate text) = some ymd ∧
      selectLatestWarrantyDate text ∈ (extractEndDates text).map pyStrip ∧
      ∀ c ∈ extractEndDates text, ∀ y2, parseYMD (pyStrip c) = some y2 →
        dateVal y2 ≤ dateVal ymd := by
  have hparse_ne : ∀ c ∈ extractEndDates text, pyStrip c ≠ [] ∧ pyStrip c ≠ naChars := by
    intro c hc
    have hsome := h2 c hc
    constructor
    · intro h0; rw [h0, parseYMD_nil] at hsome; simp at hsome
    · intro h0; rw [h0, parseYMD_na] at hsome; simp at hsome
  have hne : candPairs text ≠ [] := by
    obtain ⟨c, hc⟩ := List.exists_mem_of_ne_nil _ h1
    have hmem := candPairs_mem_of (List.mem_map_of_mem pyStrip hc)
      (hparse_ne c hc).1 (hparse_ne c hc).2
    intro h0
    rw [h0] at hmem
    simp at hmem
  obtain ⟨p, hp, hsel, hmax⟩ := select_spec hne
  obtain ⟨hp1, hp2, _, _⟩ := candPairs_spec hp
  obtain ⟨c0, hc0, hc0e⟩ := List.mem_map.mp hp2
  have hpsome : (parseYMD p.2).isSome := by rw [← hc0e]; exact h2 c0 hc0
  obtain ⟨ymd, hymd⟩ := Option.isSome_iff_exists.mp hpsome
  have hkey : sortKey p = dateVal ymd := by
    have : p.1 = some ymd := hp1.trans hymd
    unfold sortKey
    rw [this]
  refine ⟨ymd, by rw [hsel]; exact hymd, by rw [hsel]; exact hp2, ?_⟩
  intro c hc y2 hy2
  have hq : (parseYMD (pyStrip c), pyStrip c) ∈ candPairs text :=
    candPairs_mem_of (List.mem_map_of_mem pyStrip hc) (hparse_ne c hc).1 (hparse_ne c hc).2
  have hle := hmax _ hq
  rw [hkey] at hle
  have hqkey : sortKey (parseYMD (pyStrip c), pyStrip c) = dateVal y2 := by
    unfold sortKey
    rw [hy2]
  rw [hqkey] at hle
  exact hle

/-- Witness for C1 at `c1text`: both hypotheses hold there. -/
theorem C1_select_latest_is_max_date_witness :
    (extractEndDates c1text ≠ [] ∧
      ∀ c ∈ extractEndDates c1text, (parseYMD (pyStrip c)).isSome) ∧
    (∃ ymd, parseYMD (selectLatestWarrantyDate c1text) = some ymd ∧
      selectLatestWarrantyDate c1text ∈ (extractEndDates c1text).map pyStrip ∧
      ∀ c ∈ extractEndDates c1text, ∀ y2, parseYMD (pyStrip c) = some y2 →
        dateVal y2 ≤ dateVal ymd) :=
  ⟨⟨by decide, by decide⟩, C1_select_latest_is_max_date c1text (by decide) (by decide)⟩

/-- C2 counterexample: on `c2text` there are two candidates, and the function
returns the unparsable candidate `"bar"` even though it is not the only
candidate — refuting "an unparsable candidate is never returned as the latest
date unless it is the only candidate". -/
theorem C2_counterexample :
    selectLatestWarrantyDate c2text = ['b', 'a', 'r'] ∧
    parseYMD ['b', 'a', 'r'] = none ∧
    (candPairs c2text).length = 2 := by decide

/-- C2 (amended): unparsable candidates are kept in the candidate set with the
minimum possible date as sort key; an unparsable candidate is never returned
as the latest date when some candidate parses to a date strictly later than
the minimum representable date `0001-01-01`; and when all candidates are
unparsable the function returns the last candidate after the stable ascending
sort. -/
theorem C2_amended_unparsable_candidates (text : Str) :
    (∀ c ∈ extractEndDates text, pyStrip c ≠ [] → pyStrip c ≠ naChars →
        parseYMD (pyStrip c) = none →
        (none, pyStrip c) ∈ candPairs text ∧
          sortKey (none, pyStrip c) = minDateVal) ∧
    ((∃ p ∈ candPairs text, minDateVal < sortKey p) →
        (parseYMD (selectLatestWarrantyDate text)).isSome) ∧
    ((candPairs text ≠ [] ∧ ∀ p ∈ candPairs text, p.1 = none) →
        selectLatestWarrantyDate text =
          (((candPairs text).map Prod.snd).getLast?).getD naChars) := by
  refine ⟨?_, ?_, ?_⟩
  · intro c hc h1 h2 hnone
    have := candPairs_mem_of (List.mem_map_of_mem pyStrip hc) h1 h2
    rw [hnone] at this
    exact ⟨this, sortKey_none⟩
  · rintro ⟨p0, hp0, hlt⟩
    have hne : candPairs text ≠ [] := by
      intro h0
      rw [h0] at hp0
      simp at hp0
    obtain ⟨p, hp, hsel, hmax⟩ := select_spec hne
    have hkey : minDateVal < sortKey p := Nat.lt_of_lt_of_le hlt (hmax p0 hp0)
    have hp1 := (candPairs_spec hp).1
    rw [hsel, ← hp1]
    cases hps : p.1 with
    | none =>
      have hmin : sortKey p = minDateVal := by
        unfold sortKey
        rw [hps]
      rw [hmin] at hkey
      exact absurd hkey (Nat.lt_irrefl _)
    | some ymd => simp
  · rintro ⟨hne, hall⟩
    have hid : (candPairs text).insertionSort pairLe = candPairs text :=
      insertionSort_id_of_all_min fun p hp => by
        have := hall p hp
        unfold sortKey
        rw [this]
    unfold selectLatestWarrantyDate
    rw [hid]

/-- Witness for the amended C2: part two at `c2btext` (a strictly-later
parsable candidate exists), part three at `c2text` (all candidates
unparsable). -/
theorem C2_amended_unparsable_candidates_witness :
    (parseYMD (selectLatestWarrantyDate c2btext)).isSome ∧
    selectLatestWarrantyDate c2text =
      (((candPairs c2text).map Prod.snd).getLast?).getD naChars :=
  ⟨(C2_amended_unparsable_candidates c2btext).2.1
      ⟨(some (2030, 5, 6), ("2030-05-06").toList), by decide, by decide⟩,
    (C2_amended_unparsable_candidates c2text).2.2 ⟨by decide, by decide⟩⟩

/-- C3: every extracted substring is trimmed; trimmed values that are empty or
`"N/A"` are discarded and everything else is kept; and whenever the candidate
set is empty after filtering (in particular when there is no label match at
all) the function returns the sentinel `"N/A"`. -/
theorem C3_filtering_and_empty_sentinel (text : Str) :
    (∀ p ∈ candPairs text, p.2 ≠ [] ∧ p.2 ≠ naChars ∧
        p.2 ∈ (extractEndDates text).map pyStrip) ∧
    (∀ c ∈ extractEndDates text, pyStrip c ≠ [] → pyStrip c ≠ naChars →
        (parseYMD (pyStrip c), pyStrip c) ∈ candPairs text) ∧
    (extractEndDates text = [] → candPairs text = []) ∧
    (candPairs text = [] → selectLatestWarrantyDate text = naChars) := by
  refine ⟨?_, ?_, ?_, ?_⟩
  · intro p hp
    obtain ⟨_, h2, h3, h4⟩ := candPairs_spec hp
    exact ⟨h3, h4, h2⟩
  · intro c hc h1 h2
    exact candPairs_mem_of (List.mem_map_of_mem pyStrip hc) h1 h2
  · intro h
    unfold candPairs
    rw [h]
    rfl
  · exact select_eq_na

/-- Witness for C3 at `c3text`: the lone extracted `"N/A"` candidate is
discarded, and the empty candidate set yields the sentinel. -/
theorem C3_filtering_and_empty_sentinel_witness :
    (extractEndDates c3text).map pyStrip = [naChars] ∧
    candPairs c3text = [] ∧
    selectLatestWarrantyDate c3text = naChars :=
  ⟨by decide, by decide, (C3_filtering_and_empty_sentinel c3text).2.2.2 (by decide)⟩

/-- C10: the record returned by `get_lenovo_warranty` always carries the input
serial number unchanged, and its `WarrantyTill` is the sentinel `"ERROR"`
(fetch failure), the sentinel `"N/A"` (empty candidate set), or a trimmed,
non-empty substring extracted from the fetched response text after a label
match — never a fabricated value. -/
theorem C10_record_invariant (fetch : Fetch) (serial : Str) :
    (get_lenovo_warranty fetch serial).1.serialNumber = serial ∧
    ((get_lenovo_warranty fetch serial).1.warrantyTill = errChars ∨
      (get_lenovo_warranty fetch serial).1.warrantyTill = naChars ∨
      ∃ html, fetch serial = .ok html ∧
        ∃ raw ∈ extractEndDates html,
          (get_lenovo_warranty fetch serial).1.warrantyTill = pyStrip raw ∧
          (get_lenovo_warranty fetch serial).1.warrantyTill ≠ []) := by
  cases hf : fetch serial with
  | error e =>
    have hrec : get_lenovo_warranty fetch serial = (⟨serial, errChars⟩, [fetchErrMsg serial e]) := by
      unfold get_lenovo_warranty
      rw [hf]
    rw [hrec]
    exact ⟨rfl, Or.inl rfl⟩
  | ok html =>
    have hrec : get_lenovo_warranty fetch serial = (⟨serial, selectLatestWarrantyDate html⟩, []) := by
      unfold get_lenovo_warranty
      rw [hf]
    rw [hrec]
    refine ⟨rfl, ?_⟩
    by_cases hc : candPairs html = []
    · exact Or.inr (Or.inl (select_eq_na hc))
    · obtain ⟨p, hp, hsel, _⟩ := select_spec hc
      obtain ⟨_, hmem, hnn, _⟩ := candPairs_spec hp
      obtain ⟨raw, hraw, hrawe⟩ := List.mem_map.mp hmem
      refine Or.inr (Or.inr ⟨html, rfl, ⟨raw, hraw, ?_, ?_⟩⟩)
      · show selectLatestWarrantyDate html = pyStrip raw
        rw [hsel]
        exact hrawe.symm
      · show selectLatestWarrantyDate html ≠ []
        rw [hsel]
        exact hnn

/-! ## Claim-side counting predicates and the overall counting pass -/

theorem overallStep_eq (now : Nat) (p : Nat × Nat) (r : WarrantyRecord) :
    overallStep now p r =
      (p.1 + (if countedActive now r then 1 else 0),
       p.2 + (if countedExpired now r then 1 else 0)) := by
  unfold overallStep countedActive countedExpired
  by_cases h : r.warrantyTill ≠ naChars ∧ r.warrantyTill ≠ errChars
  · rw [if_pos h, if_pos h, if_pos h]
    cases hp : parseYMD r.warrantyTill with
    | none => simp
    | some ymd =>
      by_cases hle : now ≤ dateVal ymd
      · have hlt : ¬(dateVal ymd < now) := Nat.not_lt.mpr hle
        simp [hle, hlt]
      · have hlt : dateVal ymd < now := Nat.lt_of_not_le hle
        simp [hle, hlt]
  · rw [if_neg h, if_neg h, if_neg h]
    simp

theorem overall_foldl (now : Nat) :
    ∀ (rs : List WarrantyRecord) (a e : Nat),
      rs.foldl (overallStep now) (a, e) =
        (a + rs.countP (countedActive now), e + rs.countP (countedExpired now)) := by
  intro rs
  induction rs with
  | nil => intro a e; simp
  | cons r rs ih =>
    intro a e
    rw [List.foldl_cons, List.countP_cons, List.countP_cons, overallStep_eq, ih]
    simp only [Prod.mk.injEq]
    refine ⟨by omega, by omega⟩

/-- C4: the overall counting pass counts as active exactly the records whose
`warrantyTill` is neither `"N/A"` nor `"ERROR"` and parses with an end date on
or after the current moment, counts as expired exactly those parsing to a
strictly earlier date, and counts records with sentinel or unparsable strings
in neither tally. -/
theorem C4_overall_counting (now : Nat) (rs : List WarrantyRecord) :
    overallCounts now rs =
      (rs.countP (countedActive now), rs.countP (countedExpired now)) ∧
    ∀ r ∈ rs,
      (r.warrantyTill = naChars ∨ r.warrantyTill = errChars ∨
          parseYMD r.warrantyTill = none) →
        countedActive now r = false ∧ countedExpired now r = false := by
  constructor
  · have := overall_foldl now rs 0 0
    simpa [overallCounts] using this
  · intro r _ h
    unfold countedActive countedExpired
    rcases h with h | h | h
    · simp [h]
    · simp [h]
    · by_cases hs : r.warrantyTill ≠ naChars ∧ r.warrantyTill ≠ errChars
      · simp [hs, h]
      · simp [hs]

/-! ## Per-year contribution predicates and the `year_counts` dictionary -/

/-- The extra emptiness guard in `summarize_by_year` is redundant: the empty
string does not parse, so its per-record parse agrees with the overall pass's
sentinel-guarded parse. -/
theorem recordDate_eq (r : WarrantyRecord) :
    recordDate r =
      if r.warrantyTill = naChars ∨ r.warrantyTill = errChars then none
      else parseYMD r.warrantyTill := by
  unfold recordDate
  by_cases h : r.warrantyTill = []
  · rw [h]
    simp [parseYMD_nil]
  · by_cases h2 : r.warrantyTill = naChars ∨ r.warrantyTill = errChars
    · simp [h, h2]
    · simp [h, h2]

theorem countedActive_eq (now : Nat) (r : WarrantyRecord) :
    countedActive now r =
      match recordDate r with
      | some ymd => decide (now ≤ dateVal ymd)
      | none => false := by
  rw [recordDate_eq]
  unfold countedActive
  by_cases h : r.warrantyTill = naChars ∨ r.warrantyTill = errChars
  · have h' : ¬(r.warrantyTill ≠ naChars ∧ r.warrantyTill ≠ errChars) := by tauto
    rw [if_neg h', if_pos h]
  · have h' : r.warrantyTill ≠ naChars ∧ r.warrantyTill ≠ errChars := by tauto
    rw [if_pos h', if_neg h]

theorem countedExpired_eq (now : Nat) (r : WarrantyRecord) :
    countedExpired now r =
      match recordDate r with
      | some ymd => decide (dateVal ymd < now)
      | none => false := by
  rw [recordDate_eq]
  unfold countedExpired
  by_cases h : r.warrantyTill = naChars ∨ r.warrantyTill = errChars
  · have h' : ¬(r.warrantyTill ≠ naChars ∧ r.warrantyTill ≠ errChars) := by tauto
    rw [if_neg h', if_pos h]
  · have h' : r.warrantyTill ≠ naChars ∧ r.warrantyTill ≠ errChars := by tauto
    rw [if_pos h', if_neg h]

theorem lookup_bumpYear (key : Str) (act : Bool) :
    ∀ (acc : List (Str × YearCounts)) (y : Str),
      lookupYear (bumpYear key act acc) y =
        if y = key then some (bumpCounts (getCounts acc y) act)
        else lookupYear acc y := by
  intro acc
  induction acc with
  | nil =>
    intro y
    by_cases h : y = key
    · subst h
      simp [bumpYear, lookupYear, getCounts]
    · have h' : ¬(key = y) := fun h0 => h h0.symm
      simp [bumpYear, lookupYear, h, h']
  | cons kc rest ih =>
    obtain ⟨k, c⟩ := kc
    intro y
    by_cases hk : k = key
    · subst hk
      by_cases hy : y = k
      · subst hy
        simp [bumpYear, lookupYear, getCounts]
      · have hy' : ¬(k = y) := fun h0 => hy h0.symm
        simp [bumpYear, lookupYear, hy, hy']
    · have hstep : bumpYear key act ((k, c) :: rest) = (k, c) :: bumpYear key act rest := by
        simp [bumpYear, hk]
      by_cases hky : k = y
      · have hy : ¬(y = key) := fun h0 => hk (hky.trans h0)
        rw [hstep]
        simp [lookupYear, hky, hy]
      · have hskip : lookupYear ((k, c) :: bumpYear key act rest) y
            = lookupYear (bumpYear key act rest) y := by
          simp [lookupYear, hky]
        rw [hstep, hskip, ih]
        by_cases hy : y = key
        · have hgc : getCounts ((k, c) :: rest) y = getCounts rest y := by
            simp [getCounts, lookupYear, hky]
          rw [if_pos hy, if_pos hy, hgc]
        · rw [if_neg hy, if_neg hy]
          simp [lookupYear, hky]

theorem getCounts_bumpYear (key : Str) (act : Bool) (acc : List (Str × YearCounts)) (y : Str) :
    getCounts (bumpYear key act acc) y =
      if y = key then bumpCounts (getCounts acc y) act else getCounts acc y := by
  unfold getCounts
  rw [lookup_bumpYear]
  by_cases h : y = key
  · simp [h, getCounts]
  · simp [h]

theorem getCounts_foldl (now : Nat) :
    ∀ (rs : List WarrantyRecord) (acc : List (Str × YearCounts)) (y : Str),
      getCounts (rs.foldl (yearStep now) acc) y =
        ⟨(getCounts acc y).total + rs.countP (yearHit y),
         (getCounts acc y).active + rs.countP (yearHitActive now y),
         (getCounts acc y).expired + rs.countP (yearHitExpired now y)⟩ := by
  intro rs
  induction rs with
  | nil => intro acc y; simp
  | cons r rs ih =>
    intro acc y
    rw [List.foldl_cons, List.countP_cons, List.countP_cons, List.countP_cons]
    cases hr : recordDate r with
    | none =>
      have hstep : yearStep now acc r = acc := by
        unfold yearStep
        rw [hr]
      have h1 : yearHit y r = false := by
        unfold yearHit
        rw [hr]
      have h2 : yearHitActive now y r = false := by
        unfold yearHitActive
        rw [hr]
      have h3 : yearHitExpired now y r = false := by
        unfold yearHitExpired
        rw [hr]
      rw [hstep, ih, h1, h2, h3]
      simp
    | some ymd =>
      have hstep : yearStep now acc r
          = bumpYear (yearStr ymd.1) (decide (now ≤ dateVal ymd)) acc := by
        unfold yearStep
        rw [hr]
      have h1 : yearHit y r = decide (yearStr ymd.1 = y) := by
        unfold yearHit
        rw [hr]
      have h2 : yearHitActive now y r
          = (decide (yearStr ymd.1 = y) && decide (now ≤ dateVal ymd)) := by
        unfold yearHitActive
        rw [hr]
      have h3 : yearHitExpired now y r
          = (decide (yearStr ymd.1 = y) && decide (dateVal ymd < now)) := by
        unfold yearHitExpired
        rw [hr]
      rw [hstep, ih, getCounts_bumpYear, h1, h2, h3]
      by_cases hy : y = yearStr ymd.1
      · have hy' : yearStr ymd.1 = y := hy.symm
        rw [if_pos hy]
        by_cases hle : now ≤ dateVal ymd
        · have hnlt : ¬(dateVal ymd < now) := Nat.not_lt.mpr hle
          simp [bumpCounts, hy', hle, hnlt]
          omega
        · have hlt : dateVal ymd < now := Nat.lt_of_not_le hle
          simp [bumpCounts, hy', hle, hlt]
          omega
      · have hy' : ¬(yearStr ymd.1 = y) := fun h0 => hy h0.symm
        rw [if_neg hy]
        simp [hy']

theorem isSome_lookup_foldl (now : Nat) :
    ∀ (rs : List WarrantyRecord) (acc : List (Str × YearCounts)) (y : Str),
      (lookupYear (rs.foldl (yearStep now) acc) y).isSome =
        ((lookupYear acc y).isSome || rs.any (yearHit y)) := by
  intro rs
  induction rs with
  | nil => intro acc y; simp
  | cons r rs ih =>
    intro acc y
    rw [List.foldl_cons, List.any_cons]
    cases hr : recordDate r with
    | none =>
      have hstep : yearStep now acc r = acc := by
        unfold yearStep
        rw [hr]
      have h1 : yearHit y r = false := by
        unfold yearHit
        rw [hr]
      rw [hstep, ih, h1]
      simp
    | some ymd =>
      have hstep : yearStep now acc r
          = bumpYear (yearStr ymd.1) (decide (now ≤ dateVal ymd)) acc := by
        unfold yearStep
        rw [hr]
      have h1 : yearHit y r = decide (yearStr ymd.1 = y) := by
        unfold yearHit
        rw [hr]
      rw [hstep, ih, h1, lookup_bumpYear]
      by_cases hy : y = yearStr ymd.1
      · simp [hy]
      · have hy' : ¬(yearStr ymd.1 = y) := fun h0 => hy h0.symm
        simp [hy, hy']

theorem keys_bumpYear (key : Str) (act : Bool) :
    ∀ acc : List (Str × YearCounts),
      (bumpYear key act acc).map Prod.fst =
        if key ∈ acc.map Prod.fst then acc.map Prod.fst
        else acc.map Prod.fst ++ [key] := by
  intro acc
  induction acc with
  | nil => simp [bumpYear]
  | cons kc rest ih =>
    obtain ⟨k, c⟩ := kc
    by_cases hk : k = key
    · subst hk
      simp [bumpYear]
    · have h1 : bumpYear key act ((k, c) :: rest) = (k, c) :: bumpYear key act rest := by
        simp [bumpYear, hk]
      rw [h1]
      by_cases hmem : key ∈ rest.map Prod.fst
      · have hm : key ∈ ((k, c) :: rest).map Prod.fst := by simp [hmem]
        rw [if_pos hm]
        simp [ih, hmem]
      · have hk' : ¬(key = k) := fun h0 => hk h0.symm
        have hm : ¬(key ∈ ((k, c) :: rest).map Prod.fst) := by simp [hmem, hk']
        rw [if_neg hm]
        simp [ih, hmem]

theorem nodup_keys_foldl (now : Nat) :
    ∀ (rs : List WarrantyRecord) (acc : List (Str × YearCounts)),
      (acc.map Prod.fst).Nodup → ((rs.foldl (yearStep now) acc).map Prod.fst).Nodup := by
  intro rs
  induction rs with
  | nil => intro acc h; exact h
  | cons r rs ih =>
    intro acc h
    rw [List.foldl_cons]
    apply ih
    cases hr : recordDate r with
    | none =>
      have hstep : yearStep now acc r = acc := by
        unfold yearStep
        rw [hr]
      rw [hstep]
      exact h
    | some ymd =>
      have hstep : yearStep now acc r
          = bumpYear (yearStr ymd.1) (decide (now ≤ dateVal ymd)) acc := by
        unfold yearStep
        rw [hr]
      rw [hstep, keys_bumpYear]
      by_cases hmem : yearStr ymd.1 ∈ acc.map Prod.fst
      · rw [if_pos hmem]
        exact h
      · rw [if_neg hmem]
        simp [List.nodup_append, h, hmem]

theorem mem_keys_iff_isSome :
    ∀ (acc : List (Str × YearCounts)) (y : Str),
      y ∈ acc.map Prod.fst ↔ (lookupYear acc y).isSome := by
  intro acc
  induction acc with
  | nil => intro y; simp [lookupYear]
  | cons kc rest ih =>
    obtain ⟨k, c⟩ := kc
    intro y
    by_cases hk : k = y
    · subst hk
      simp [lookupYear]
    · have hk' : ¬(y = k) := fun h0 => hk h0.symm
      simp [lookupYear, hk, hk', ih]

theorem map_getCounts_keys :
    ∀ acc : List (Str × YearCounts), (acc.map Prod.fst).Nodup →
      (acc.map Prod.fst).map (fun y => getCounts acc y) = acc.map Prod.snd := by
  intro acc
  induction acc with
  | nil => intro _; rfl
  | cons kc rest ih =>
    obtain ⟨k, c⟩ := kc
    intro h
    rw [List.map_cons] at h
    have hknotin : k ∉ rest.map Prod.fst := (List.nodup_cons.mp h).1
    have hrest : (rest.map Prod.fst).Nodup := (List.nodup_cons.mp h).2
    rw [List.map_cons, List.map_cons, List.map_cons]
    congr 1
    · simp [getCounts, lookupYear]
    · rw [← ih hrest]
      apply List.map_congr_left
      intro y hy
      have hky : ¬(k = y) := fun h0 => hknotin (h0 ▸ hy)
      simp [getCounts, lookupYear, hky]

theorem sum_active_bumpYear (key : Str) (act : Bool) :
    ∀ acc : List (Str × YearCounts),
      ((bumpYear key act acc).map (fun p => p.2.active)).sum =
        ((acc.map (fun p => p.2.active)).sum) + (if act then 1 else 0) := by
  intro acc
  induction acc with
  | nil => cases act <;> simp [bumpYear, bumpCounts, zeroCounts]
  | cons kc rest ih =>
    obtain ⟨k, c⟩ := kc
    by_cases hk : k = key
    · subst hk
      cases act <;> simp [bumpYear, bumpCounts] <;> omega
    · have h1 : bumpYear key act ((k, c) :: rest) = (k, c) :: bumpYear key act rest := by
        simp [bumpYear, hk]
      rw [h1]
      simp only [List.map_cons, List.sum_cons, ih]
      omega

theorem sum_expired_bumpYear (key : Str) (act : Bool) :
    ∀ acc : List (Str × YearCounts),
      ((bumpYear key act acc).map (fun p => p.2.expired)).sum =
        ((acc.map (fun p => p.2.expired)).sum) + (if act then 0 else 1) := by
  intro acc
  induction acc with
  | nil => cases act <;> simp [bumpYear, bumpCounts, zeroCounts]
  | cons kc rest ih =>
    obtain ⟨k, c⟩ := kc
    by_cases hk : k = key
    · subst hk
      cases act <;> simp [bumpYear, bumpCounts] <;> omega
    · have h1 : bumpYear key act ((k, c) :: rest) = (k, c) :: bumpYear key act rest := by
        simp [bumpYear, hk]
      rw [h1]
      simp only [List.map_cons, List.sum_cons, ih]
      omega

theorem sum_active_foldl (now : Nat) :
    ∀ (rs : List WarrantyRecord) (acc : List (Str × YearCounts)),
      ((rs.foldl (yearStep now) acc).map (fun p => p.2.active)).sum =
        ((acc.map (fun p => p.2.active)).sum) + rs.countP (countedActive now) := by
  intro rs
  induction rs with
  | nil => intro acc; simp
  | cons r rs ih =>
    intro acc
    rw [List.foldl_cons, List.countP_cons]
    cases hr : recordDate r with
    | none =>
      have hstep : yearStep now acc r = acc := by
        unfold yearStep
        rw [hr]
      have hca : countedActive now r = false := by
        rw [countedActive_eq, hr]
      rw [hstep, ih, hca]
      simp
    | some ymd =>
      have hstep : yearStep now acc r
          = bumpYear (yearStr ymd.1) (decide (now ≤ dateVal ymd)) acc := by
        unfold yearStep
        rw [hr]
      have hca : countedActive now r = decide (now ≤ dateVal ymd) := by
        rw [countedActive_eq, hr]
      rw [hstep, ih, sum_active_bumpYear, hca]
      by_cases hle : now ≤ dateVal ymd
      · simp [hle]
        omega
      · simp [hle]

theorem sum_expired_foldl (now : Nat) :
    ∀ (rs : List WarrantyRecord) (acc : List (Str × YearCounts)),
      ((rs.foldl (yearStep now) acc).map (fun p => p.2.expired)).sum =
        ((acc.map (fun p => p.2.expired)).sum) + rs.countP (countedExpired now) := by
  intro rs
  induction rs with
  | nil => intro acc; simp
  | cons r rs ih =>
    intro acc
    rw [List.foldl_cons, List.countP_cons]
    cases hr : recordDate r with
    | none =>
      have hstep : yearStep now acc r = acc := by
        unfold yearStep
        rw [hr]
      have hce : countedExpired now r = false := by
        rw [countedExpired_eq, hr]
      rw [hstep, ih, hce]
      simp
    | some ymd =>
      have hstep : yearStep now acc r
          = bumpYear (yearStr ymd.1) (decide (now ≤ dateVal ymd)) acc := by
        unfold yearStep
        rw [hr]
      have hce : countedExpired now r = decide (dateVal ymd < now) := by
        rw [countedExpired_eq, hr]
      rw [hstep, ih, sum_expired_bumpYear, hce]
      by_cases hle : now ≤ dateVal ymd
      · have hnlt : ¬(dateVal ymd < now) := Nat.not_lt.mpr hle
        simp [hle, hnlt]
      · have hlt : dateVal ymd < now := Nat.lt_of_not_le hle
        simp [hle, hlt]
        omega

/-! ## Shape of the `summarize_by_year` output -/

theorem summarize_map_year (now : Nat) (rs : List WarrantyRecord) :
    (summarize_by_year now rs).map YearBucket.year =
      ((yearAcc now rs).map Prod.fst).insertionSort strLe := by
  unfold summarize_by_year
  rw [List.map_map]
  exact List.map_id _

theorem nodup_summarize_years (now : Nat) (rs : List WarrantyRecord) :
    ((summarize_by_year now rs).map YearBucket.year).Nodup := by
  rw [summarize_map_year]
  exact (List.perm_insertionSort strLe _).symm.nodup (nodup_keys_foldl now rs [] (by simp))

theorem yearHit_iff {y : Str} {r : WarrantyRecord} :
    yearHit y r = true ↔ ∃ ymd, recordDate r = some ymd ∧ yearStr ymd.1 = y := by
  unfold yearHit
  cases hrd : recordDate r with
  | none => simp
  | some ymd => simp

theorem mem_summarize_year_iff (now : Nat) (rs : List WarrantyRecord) (y : Str) :
    y ∈ (summarize_by_year now rs).map YearBucket.year ↔
      ∃ r ∈ rs, yearHit y r = true := by
  rw [summarize_map_year, (List.perm_insertionSort strLe _).mem_iff, mem_keys_iff_isSome]
  unfold yearAcc
  rw [isSome_lookup_foldl]
  simp only [lookupYear, Option.isSome_none, Bool.false_or]
  exact List.any_eq_true

theorem summarize_bucket_eq (now : Nat) (rs : List WarrantyRecord) {b : YearBucket}
    (hb : b ∈ summarize_by_year now rs) :
    b.total = rs.countP (yearHit b.year) ∧
    b.active = rs.countP (yearHitActive now b.year) ∧
    b.expired = rs.countP (yearHitExpired now b.year) := by
  unfold summarize_by_year at hb
  obtain ⟨y, _, hbeq⟩ := List.mem_map.mp hb
  have hgc : getCounts (yearAcc now rs) y =
      ⟨rs.countP (yearHit y), rs.countP (yearHitActive now y),
       rs.countP (yearHitExpired now y)⟩ := by
    unfold yearAcc
    rw [getCounts_foldl]
    simp [getCounts, lookupYear, zeroCounts]
  rw [← hbeq]
  simp [hgc]

theorem summarize_year_unique (now : Nat) (rs : List WarrantyRecord) {b b' : YearBucket}
    (hb : b ∈ summarize_by_year now rs) (hb' : b' ∈ summarize_by_year now rs)
    (hyy : b.year = b'.year) : b = b' :=
  List.inj_on_of_nodup_map (nodup_summarize_years now rs) hb hb' hyy

/-- C5: `summarize_by_year` emits one bucket per distinct year of the
parseable, non-sentinel `warrantyTill` values (sentinel and unparsable values
are excluded entirely), each bucket's total/active/expired tallies counting
exactly the contributing records (active iff the end date is on or after now,
expired iff strictly before), with buckets sorted ascending by year under
lexicographic string comparison. -/
theorem C5_summarize_by_year_shape (now : Nat) (rs : List WarrantyRecord) :
    ((summarize_by_year now rs).map YearBucket.year).Sorted strLe ∧
    ((summarize_by_year now rs).map YearBucket.year).Nodup ∧
    (∀ y : Str, y ∈ (summarize_by_year now rs).map YearBucket.year ↔
        ∃ r ∈ rs, ∃ ymd, recordDate r = some ymd ∧ yearStr ymd.1 = y) ∧
    (∀ b ∈ summarize_by_year now rs,
        b.total = rs.countP (yearHit b.year) ∧
        b.active = rs.countP (yearHitActive now b.year) ∧
        b.expired = rs.countP (yearHitExpired now b.year)) := by
  refine ⟨?_, nodup_summarize_years now rs, ?_, ?_⟩
  · rw [summarize_map_year]
    exact List.sorted_insertionSort strLe _
  · intro y
    rw [mem_summarize_year_iff]
    constructor
    · rintro ⟨r, hr, hhit⟩
      exact ⟨r, hr, yearHit_iff.mp hhit⟩
    · rintro ⟨r, hr, hex⟩
      exact ⟨r, hr, yearHit_iff.mpr hex⟩
  · intro b hb
    exact summarize_bucket_eq now rs hb

/-! ## The refinement between the two counting passes -/

theorem countP_split (p q s : α → Bool) :
    ∀ l : List α,
      (∀ x ∈ l, p x = (q x || s x) ∧ ¬(q x = true ∧ s x = true)) →
      l.countP p = l.countP q + l.countP s := by
  intro l
  induction l with
  | nil => intro _; rfl
  | cons a t ih =>
    intro h
    rw [List.countP_cons, List.countP_cons, List.countP_cons,
      ih fun x hx => h x (List.mem_cons_of_mem a hx)]
    obtain ⟨hor, hnot⟩ := h a (List.mem_cons_self a t)
    cases hq : q a with
    | true =>
      cases hs : s a with
      | true => exact absurd ⟨hq, hs⟩ hnot
      | false =>
        rw [hq, hs] at hor
        simp only [Bool.or_false] at hor
        simp [hor, hq, hs]
        all_goals omega
    | false =>
      cases hs : s a with
      | true =>
        rw [hq, hs] at hor
        simp only [Bool.false_or] at hor
        simp [hor, hq, hs]
        all_goals omega
      | false =>
        rw [hq, hs] at hor
        simp only [Bool.or_self] at hor
        simp [hor, hq, hs]

theorem yearHit_split (now : Nat) (y : Str) (r : WarrantyRecord) :
    yearHit y r = (yearHitActive now y r || yearHitExpired now y r) ∧
      ¬(yearHitActive now y r = true ∧ yearHitExpired now y r = true) := by
  unfold yearHit yearHitActive yearHitExpired
  cases hrd : recordDate r with
  | none => simp
  | some ymd =>
    by_cases hle : now ≤ dateVal ymd
    · have hnlt : ¬(dateVal ymd < now) := Nat.not_lt.mpr hle
      simp [hle, hnlt]
    · have hlt : dateVal ymd < now := Nat.lt_of_not_le hle
      simp [hle, hlt]

theorem recordDate_isSome_iff (r : WarrantyRecord) :
    (recordDate r).isSome = (parseYMD r.warrantyTill).isSome := by
  rw [recordDate_eq]
  by_cases h : r.warrantyTill = naChars ∨ r.warrantyTill = errChars
  · rcases h with h | h
    · simp [h, parseYMD_na]
    · simp [h, parseYMD_err]
  · simp [h]

/-- C6: when every non-sentinel `warrantyTill` parses, the per-year active and
expired tallies of `summarize_by_year`, summed over all years, equal the
overall pass's active and expired counts (both passes use the same
on-or-after-now comparison; the identity in fact needs no parse hypothesis). -/
theorem C6_year_sums_equal_overall (now : Nat) (rs : List WarrantyRecord)
    (h : ∀ r ∈ rs, r.warrantyTill ≠ naChars → r.warrantyTill ≠ errChars →
        (parseYMD r.warrantyTill).isSome) :
    ((summarize_by_year now rs).map (fun b => b.active)).sum = (overallCounts now rs).1 ∧
    ((summarize_by_year now rs).map (fun b => b.expired)).sum = (overallCounts now rs).2 := by
  have hkeysnodup : ((yearAcc now rs).map Prod.fst).Nodup :=
    nodup_keys_foldl now rs [] (by simp)
  have hperm : List.Perm (((yearAcc now rs).map Prod.fst).insertionSort strLe)
      ((yearAcc now rs).map Prod.fst) := List.perm_insertionSort strLe _
  have hoverall : overallCounts now rs
      = (rs.countP (countedActive now), rs.countP (countedExpired now)) := by
    have h0 := overall_foldl now rs 0 0
    simpa [overallCounts] using h0
  constructor
  · have h1 : (summarize_by_year now rs).map (fun b => b.active)
        = (((yearAcc now rs).map Prod.fst).insertionSort strLe).map
            (fun y => (getCounts (yearAcc now rs) y).active) := by
      unfold summarize_by_year
      rw [List.map_map]
      rfl
    rw [h1, (hperm.map _).sum_eq]
    have h3 : ((yearAcc now rs).map Prod.fst).map (fun y => getCounts (yearAcc now rs) y)
        = (yearAcc now rs).map Prod.snd := map_getCounts_keys _ hkeysnodup
    have h5 : ((yearAcc now rs).map Prod.fst).map
          (fun y => (getCounts (yearAcc now rs) y).active)
        = (yearAcc now rs).map (fun p => p.2.active) := by
      rw [show (fun y => (getCounts (yearAcc now rs) y).active)
          = ((fun c => c.active) ∘ fun y => getCounts (yearAcc now rs) y) from rfl]
      rw [← List.map_map, h3, List.map_map]
      rfl
    rw [h5]
    unfold yearAcc
    rw [sum_active_foldl, hoverall]
    simp
  · have h1 : (summarize_by_year now rs).map (fun b => b.expired)
        = (((yearAcc now rs).map Prod.fst).insertionSort strLe).map
            (fun y => (getCounts (yearAcc now rs) y).expired) := by
      unfold summarize_by_year
      rw [List.map_map]
      rfl
    rw [h1, (hperm.map _).sum_eq]
    have h3 : ((yearAcc now rs).map Prod.fst).map (fun y => getCounts (yearAcc now rs) y)
        = (yearAcc now rs).map Prod.snd := map_getCounts_keys _ hkeysnodup
    have h5 : ((yearAcc now rs).map Prod.fst).map
          (fun y => (getCounts (yearAcc now rs) y).expired)
        = (yearAcc now rs).map (fun p => p.2.expired) := by
      rw [show (fun y => (getCounts (yearAcc now rs) y).expired)
          = ((fun c => c.expired) ∘ fun y => getCounts (yearAcc now rs) y) from rfl]
      rw [← List.map_map, h3, List.map_map]
      rfl
    rw [h5]
    unfold yearAcc
    rw [sum_expired_foldl, hoverall]
    simp

/-- Witness for C6 at `rs4`/`now4`: every non-sentinel value parses there. -/
theorem C6_year_sums_equal_overall_witness :
    (∀ r ∈ rs4, r.warrantyTill ≠ naChars → r.warrantyTill ≠ errChars →
        (parseYMD r.warrantyTill).isSome) ∧
    ((summarize_by_year now4 rs4).map (fun b => b.active)).sum = (overallCounts now4 rs4).1 ∧
    ((summarize_by_year now4 rs4).map (fun b => b.expired)).sum = (overallCounts now4 rs4).2 :=
  ⟨by decide, (C6_year_sums_equal_overall now4 rs4 (by decide)).1,
    (C6_year_sums_equal_overall now4 rs4 (by decide)).2⟩

/-- C7: in every emitted YearBucket, `total = active + expired`; and a record
contributes to exactly one bucket (the one for its end date's year) iff its
`warrantyTill` parses as a valid date. -/
theorem C7_bucket_invariants (now : Nat) (rs : List WarrantyRecord) :
    (∀ b ∈ summarize_by_year now rs, b.total = b.active + b.expired) ∧
    (∀ r ∈ rs, ((parseYMD r.warrantyTill).isSome ↔
        ∃! b, b ∈ summarize_by_year now rs ∧
          ∃ ymd, recordDate r = some ymd ∧ b.year = yearStr ymd.1)) := by
  constructor
  · intro b hb
    obtain ⟨ht, ha, he⟩ := summarize_bucket_eq now rs hb
    rw [ht, ha, he]
    exact countP_split _ _ _ rs fun r _ => yearHit_split now b.year r
  · intro r hr
    rw [← recordDate_isSome_iff]
    constructor
    · intro hsome
      obtain ⟨ymd, hymd⟩ := Option.isSome_iff_exists.mp hsome
      have hhit : yearHit (yearStr ymd.1) r = true :=
        yearHit_iff.mpr ⟨ymd, hymd, rfl⟩
      obtain ⟨b, hbmem, hbyear⟩ := List.mem_map.mp
        ((mem_summarize_year_iff now rs (yearStr ymd.1)).mpr ⟨r, hr, hhit⟩)
      refine ⟨b, ⟨hbmem, ymd, hymd, hbyear⟩, ?_⟩
      rintro b' ⟨hb'mem, ymd', hymd', hb'year⟩
      have heq : ymd' = ymd := by
        rw [hymd] at hymd'
        exact (Option.some_inj.mp hymd').symm
      exact summarize_year_unique now rs hb'mem hbmem (by rw [hb'year, heq, ← hbyear])
    · rintro ⟨b, ⟨_, ymd, hymd, _⟩, _⟩
      rw [hymd]
      rfl

/-! ## Bulk processing lemmas and claims C8, C9 -/

theorem get_serial (fetch : Fetch) (s : Str) :
    (get_lenovo_warranty fetch s).1.serialNumber = s := by
  unfold get_lenovo_warranty
  cases fetch s <;> rfl

theorem process_bulk_aux (fetch : Fetch) :
    ∀ (lines : List Str) (acc : List WarrantyRecord),
      lines.foldl (bulkStep fetch) acc
        = acc ++ (keptSerials lines).map (fun s => (get_lenovo_warranty fetch s).1) := by
  intro lines
  induction lines with
  | nil => intro acc; simp [keptSerials]
  | cons l ls ih =>
    intro acc
    rw [List.foldl_cons]
    have hks : keptSerials (l :: ls)
        = (if !(pyStrip l).isEmpty && !startsHash (pyStrip l) then [pyStrip l] else [])
          ++ keptSerials ls := by
      unfold keptSerials
      rw [List.map_cons, List.filter_cons]
      by_cases hc : !(pyStrip l).isEmpty && !startsHash (pyStrip l)
      · simp [hc]
      · simp [hc]
    rw [hks]
    by_cases he : (pyStrip l).isEmpty
    · have hstep : bulkStep fetch acc l = acc := by
        unfold bulkStep
        simp [he]
      rw [hstep, ih]
      simp [he]
    · by_cases hh : startsHash (pyStrip l)
      · have hstep : bulkStep fetch acc l = acc := by
          unfold bulkStep
          simp [hh]
        rw [hstep, ih]
        simp [he, hh]
      · have hstep : bulkStep fetch acc l
            = acc ++ [(get_lenovo_warranty fetch (pyStrip l)).1] := by
          unfold bulkStep
          simp [he, hh]
        rw [hstep, ih]
        simp [he, hh, List.append_assoc]

theorem process_bulk_eq_map (fetch : Fetch) (lines : List Str) :
    process_bulk fetch lines
      = (keptSerials lines).map (fun s => (get_lenovo_warranty fetch s).1) := by
  unfold process_bulk
  rw [process_bulk_aux]
  simp

/-- C8: when the fetch fails for a serial, `get_lenovo_warranty` returns a
record with `WarrantyTill = "ERROR"` instead of raising, writes a stderr
diagnostic containing the serial number, and in bulk mode every kept line
still produces its own record — one failing lookup never aborts the rest. -/
theorem C8_fetch_failure_contained (fetch : Fetch) (serial e : Str)
    (h : fetch serial = .error e) :
    (get_lenovo_warranty fetch serial).1.warrantyTill = errChars ∧
    (∃ msg ∈ (get_lenovo_warranty fetch serial).2, serial <:+: msg) ∧
    ∀ lines : List Str, process_bulk fetch lines =
      (keptSerials lines).map fun s => (get_lenovo_warranty fetch s).1 := by
  have hrec : get_lenovo_warranty fetch serial = (⟨serial, errChars⟩, [fetchErrMsg serial e]) := by
    unfold get_lenovo_warranty
    rw [h]
  refine ⟨by rw [hrec], ?_, fun lines => process_bulk_eq_map fetch lines⟩
  rw [hrec]
  refine ⟨fetchErrMsg serial e, List.mem_singleton_self _, ?_⟩
  exact ⟨("Error fetching warranty for ").toList, (": ").toList ++ e,
    by simp [fetchErrMsg, List.append_assoc]⟩

/-- Witness for C8 at `fetchFail`/`serialAB`: the fetch fails there, the
record carries the `ERROR` sentinel, the diagnostic names the serial, and a
two-line bulk run still yields both records. -/
theorem C8_fetch_failure_contained_witness :
    (get_lenovo_warranty fetchFail serialAB).1.warrantyTill = errChars ∧
    (∃ msg ∈ (get_lenovo_warranty fetchFail serialAB).2, serialAB <:+: msg) ∧
    process_bulk fetchFail [serialAB, serialCD]
      = [⟨serialAB, errChars⟩, ⟨serialCD, errChars⟩] :=
  ⟨(C8_fetch_failure_contained fetchFail serialAB (("timed out").toList) rfl).1,
   (C8_fetch_failure_contained fetchFail serialAB (("timed out").toList) rfl).2.1,
   ((C8_fetch_failure_contained fetchFail serialAB (("timed out").toList) rfl).2.2
      [serialAB, serialCD]).trans (by decide)⟩

/-- C9 counterexample: the line `" #x"` is neither blank nor begins with
`'#'`, so the claim counts it, but the code tests `'#'` on the stripped line
and skips it: the bulk result list is empty where the claim demands length
one. -/
theorem C9_counterexample :
    (process_bulk fetchOK [(" #x").toList]).length = 0 ∧
    ([(" #x").toList].countP claimKept) = 1 := by decide

/-- C9 (amended): bulk processing performs one lookup per line and produces a
result list whose length equals exactly the number of lines whose
whitespace-stripped content is neither empty nor begins with `'#'`, processed
strictly in file order: the records are the lookups of the kept serials in
order, and their serial numbers are exactly the kept serials. -/
theorem C9_bulk_line_count (fetch : Fetch) (lines : List Str) :
    (process_bulk fetch lines).length
      = lines.countP (fun l => !(pyStrip l).isEmpty && !startsHash (pyStrip l)) ∧
    process_bulk fetch lines
      = (keptSerials lines).map (fun s => (get_lenovo_warranty fetch s).1) ∧
    (process_bulk fetch lines).map (fun r => r.serialNumber) = keptSerials lines := by
  refine ⟨?_, process_bulk_eq_map fetch lines, ?_⟩
  · rw [process_bulk_eq_map, List.length_map]
    unfold keptSerials
    rw [← List.countP_eq_length_filter, List.countP_map]
    rfl
  · rw [process_bulk_eq_map, List.map_map]
    have : ((fun r : WarrantyRecord => r.serialNumber)
        ∘ fun s => (get_lenovo_warranty fetch s).1) = fun s => s := by
      funext s
      exact get_serial fetch s
    rw [this]
    exact List.map_id _

end LenovoWarranty

